import Mathlib

/-!
Verification development for the Forge-Fire repository.

The repository ships a small C++ inference scaffold (`src/llm-engine`):
`main.cpp` with a command-line parsing loop and `tensor.hpp` with a stub
`Tensor` class.  These are embedded directly below.

The GraphRAG core described by the design document (extractor, resolver,
graph store, community engine, query engine) is not present in the source
tree; those components are modelled from the specification text, each such
definition marked `Modelled from the spec:`.
-/

/-! ## Embedding of src/llm-engine/src/tensor.hpp -/

/-- The `DType` enum of tensor.hpp: FP32, FP16, INT8, Q4. -/
inductive DType where
  | FP32
  | FP16
  | INT8
  | Q4
deriving DecidableEq, Repr

/-- The `Tensor` class of tensor.hpp.  The C++ class stores no member
data; its two constructors (`Tensor()` and `Tensor(shape, dtype)`, whose
body is empty and discards its arguments) are embedded as the two ways of
constructing a value, recording the construction arguments so that
"however constructed" is quantifiable. -/
inductive Tensor where
  | mkDefault
  | ofShapeDtype (shape : List Int) (dtype : DType)
deriving DecidableEq, Repr

/-- The member `size_t byte_size() const` of tensor.hpp, which returns 0. -/
def Tensor.byte_size : Tensor → Nat := fun _ => 0

/-- The member `std::vector<int> shape() const` of tensor.hpp, which returns
the empty vector. -/
def Tensor.shape : Tensor → List Int := fun _ => []

/-- The member `void* raw()` of tensor.hpp, which returns nullptr; a null
pointer is `none`. -/
def Tensor.raw : Tensor → Option Unit := fun _ => none

/-- The member `template<typename T> T* data()` of tensor.hpp, which returns
nullptr; a null typed pointer is `none` at every element type. -/
def Tensor.data (α : Type) : Tensor → Option α := fun _ => none

/-! ## Embedding of src/llm-engine/src/main.cpp -/

/-- The argument-scanning loop of `main`:
```
for (size_t i = 0; i < args.size(); ++i) {
    if (args[i] == "--model" && i + 1 < args.size()) {
        model_path = args[++i];
    }
}
```
`acc` is the current value of `model_path` (initially `""`).  When
`args[i] == "--model"` and a following argument exists, that argument is
assigned and the `++i` inside the body skips it, so the consumed value is
not examined as a flag. -/
def parseModelPath : List String → String → String
  | [], acc => acc
  | a :: rest, acc =>
    if a = "--model" then
      match rest with
      | [] => acc
      | v :: rest2 => parseModelPath rest2 v
    else parseModelPath rest acc

/-- Observable outcome of `main` up to the point where the model would be
loaded: the parsed `model_path`, whether `print_usage` ran, whether
`load_onnx_initializers` would be attempted, and the early exit code when
`main` returns before loading. -/
structure MainObs where
  model_path : String
  printed_usage : Bool
  attempted_load : Bool
  early_exit : Option Int
deriving DecidableEq, Repr

/-- The function `main` up to model loading: parse `model_path` from the argument list
(`argv[1..]`); if it is empty, print usage and return 1, else proceed to
load the model at that path. -/
def mainRun (args : List String) : MainObs :=
  let mp := parseModelPath args ""
  if mp = "" then
    { model_path := mp, printed_usage := true, attempted_load := false,
      early_exit := some 1 }
  else
    { model_path := mp, printed_usage := false, attempted_load := true,
      early_exit := none }

/-- Holds (`true`) when the list contains some `"--model"` that has a further
argument after it. -/
def hasModelPair : List String → Bool
  | a :: v :: rest => a = "--model" || hasModelPair (v :: rest)
  | _ => false

/-- Reading of claim C9's words, for comparison with the code: the
argument immediately following the LAST occurrence of `"--model"` that
has a following argument (every position is examined, none skipped). -/
def specLastModelValue : List String → String → String
  | a :: v :: rest, acc =>
      specLastModelValue (v :: rest) (if a = "--model" then v else acc)
  | _, acc => acc

/-! ## Spec-modelled GraphRAG core: data model and Graph Store

The GraphRAG core is absent from the source tree (the design document
describes it as unimplemented scaffolding); the definitions below are
modelled from the specification text. -/

/-- Modelled from the spec: canonical Entity
`{id, canonical_name, type, aliases, description, supporting_chunks, degree}`. -/
structure Entity where
  id : Nat
  canonical_name : String
  type : String
  aliases : Finset String
  description : String
  supporting_chunks : Finset Nat
  degree : Nat
deriving DecidableEq

/-- Modelled from the spec: canonical Relationship
`{source_entity_id, target_entity_id, relation_type, weight, supporting_chunks}`;
weight is a rational stand-in for the float weight. -/
structure Relationship where
  source_entity_id : Nat
  target_entity_id : Nat
  relation_type : String
  weight : ℚ
  supporting_chunks : Finset Nat
deriving DecidableEq

/-- Modelled from the spec: the error taxonomy entries raised by graph
mutation (`GraphInvariantViolation`, `ResolutionConflict`). -/
inductive GraphError where
  | GraphInvariantViolation
  | ResolutionConflict
deriving DecidableEq, Repr

/-- Modelled from the spec: the Graph owns the set of Entities and
Relationships. -/
structure Graph where
  entities : List Entity
  relationships : List Relationship
deriving DecidableEq

def Graph.empty : Graph := ⟨[], []⟩

/-- An entity id is present in the graph's Entity set. -/
def Graph.hasEntity (g : Graph) (i : Nat) : Bool :=
  g.entities.any fun e => e.id = i

/-- Modelled from the spec: merging entity `a` into entity `b` (`a` loses
identity into `b`): the alias set and supporting_chunks become the unions
of both originals, the description is concatenated (summarization is an
external policy), identity fields come from `b`. -/
def mergeEntity (a b : Entity) : Entity :=
  { id := b.id, canonical_name := b.canonical_name, type := b.type,
    aliases := a.aliases ∪ b.aliases,
    description := b.description ++ " " ++ a.description,
    supporting_chunks := a.supporting_chunks ∪ b.supporting_chunks,
    degree := b.degree }

/-- Modelled from the spec: a canonical entity absorbing a sequence of
duplicate entities as they arrive (each arrival is merged into the
current canonical entity). -/
def absorbAll (e : Entity) (l : List Entity) : Entity :=
  l.foldl (fun b a => mergeEntity a b) e

/-- Two relationships have the same collapsing key
`(source, target, relation_type)`. -/
def Relationship.sameKey (r s : Relationship) : Bool :=
  decide (r.source_entity_id = s.source_entity_id ∧
          r.target_entity_id = s.target_entity_id ∧
          r.relation_type = s.relation_type)

/-- Modelled from the spec: `upsert_entity` — on an existing id the entity
data is merged into the stored entity, otherwise a new Entity is created. -/
def Graph.upsert_entity (g : Graph) (e : Entity) : Graph :=
  if g.hasEntity e.id then
    { g with entities := g.entities.map fun e0 =>
        if e0.id = e.id then mergeEntity e e0 else e0 }
  else
    { g with entities := e :: g.entities }

/-- Modelled from the spec: `upsert_relationship` — rejects self-loop
edges and edges with missing endpoints with `GraphInvariantViolation`;
parallel mentions between the same `(source, target, relation_type)`
increment weight and accumulate supporting chunks rather than create a
duplicate edge; a genuinely new edge increments the endpoints' degrees. -/
def Graph.upsert_relationship (g : Graph) (r : Relationship) :
    Except GraphError Graph :=
  if r.source_entity_id = r.target_entity_id then
    Except.error GraphError.GraphInvariantViolation
  else if g.hasEntity r.source_entity_id && g.hasEntity r.target_entity_id then
    if g.relationships.any (fun s => s.sameKey r) then
      Except.ok { g with relationships := g.relationships.map (fun s =>
        if s.sameKey r then
          { s with weight := s.weight + r.weight,
                   supporting_chunks := s.supporting_chunks ∪ r.supporting_chunks }
        else s) }
    else
      Except.ok
        { entities := g.entities.map fun e =>
            if e.id = r.source_entity_id || e.id = r.target_entity_id then
              { e with degree := e.degree + 1 }
            else e,
          relationships := r :: g.relationships }
  else
    Except.error GraphError.GraphInvariantViolation

def remapId (a b i : Nat) : Nat := if i = a then b else i

/-- Modelled from the spec: merging canonical entity `a` into `b` at graph
level — `a` loses identity into `b`, relationship endpoints are remapped
through the id-remapping (old id → surviving id), and a remapped edge that
would become a self-loop is not kept (self-loops are rejected). -/
def Graph.merge_entities (g : Graph) (a b : Nat) : Except GraphError Graph :=
  if a = b then Except.error GraphError.GraphInvariantViolation
  else
    match g.entities.find? (fun e => e.id = a),
          g.entities.find? (fun e => e.id = b) with
    | some ea, some _ =>
        Except.ok
          { entities := (g.entities.filter (fun e => e.id ≠ a)).map fun e =>
              if e.id = b then mergeEntity ea e else e,
            relationships :=
              (g.relationships.map fun r =>
                { r with
                    source_entity_id := remapId a b r.source_entity_id,
                    target_entity_id := remapId a b r.target_entity_id }).filter
                fun r => r.source_entity_id ≠ r.target_entity_id }
    | _, _ => Except.error GraphError.ResolutionConflict

/-- Modelled from the spec: the graph mutations the Resolver can issue
while ingesting mention sets. -/
inductive GraphOp where
  | upsertEntity (e : Entity)
  | upsertRel (r : Relationship)
  | mergeEnts (a b : Nat)

/-- Modelled from the spec: per-mutation errors are isolated — a rejected
mutation is fatal only to itself and leaves the graph unchanged. -/
def applyOp (g : Graph) : GraphOp → Graph
  | GraphOp.upsertEntity e => g.upsert_entity e
  | GraphOp.upsertRel r =>
    match g.upsert_relationship r with
    | Except.ok g2 => g2
    | Except.error _ => g
  | GraphOp.mergeEnts a b =>
    match g.merge_entities a b with
    | Except.ok g2 => g2
    | Except.error _ => g

/-- Modelled from the spec: an ingestion run is a sequence of resolved
mutations applied to the (initially empty) graph. -/
def runOps (ops : List GraphOp) : Graph := ops.foldl applyOp Graph.empty

/-- Graph well-formedness: every Relationship's endpoints exist in the
Entity set (no dangling edges). -/
def Graph.wf (g : Graph) : Prop :=
  ∀ r ∈ g.relationships,
    g.hasEntity r.source_entity_id = true ∧ g.hasEntity r.target_entity_id = true

/-! ## Spec-modelled Community Engine -/

/-- The set of entity ids present in a graph. -/
def entityIds (g : Graph) : Finset Nat := (g.entities.map Entity.id).toFinset

/-- The entity ids of a graph as a duplicate-free ascending list (greedy
moves visit nodes in ascending id order for deterministic tie-breaking). -/
def entityIdList (g : Graph) : List Nat :=
  List.insertionSort (· ≤ ·) (g.entities.map Entity.id).dedup

/-- Unnormalized fraction arithmetic used inside the Community Engine:
a numerator and a (positive, by construction) denominator, compared by
cross-multiplication.  Keeping fractions unnormalized avoids rational
normalization while representing the same values. -/
structure Wt where
  num : Int
  den : Int
deriving DecidableEq

def Wt.ofRat (q : ℚ) : Wt := ⟨q.num, (q.den : Int)⟩

def Wt.zero : Wt := ⟨0, 1⟩

def Wt.add (a b : Wt) : Wt := ⟨a.num * b.den + b.num * a.den, a.den * b.den⟩

def Wt.mul (a b : Wt) : Wt := ⟨a.num * b.num, a.den * b.den⟩

def Wt.sub (a b : Wt) : Wt := ⟨a.num * b.den - b.num * a.den, a.den * b.den⟩

/-- Comparison `a < b` for positive denominators. -/
def Wt.lt (a b : Wt) : Bool := decide (a.num * b.den < b.num * a.den)

/-- Equality `a = b` (as values) for positive denominators. -/
def Wt.eqv (a b : Wt) : Bool := decide (a.num * b.den = b.num * a.den)

def Wt.isZero (a : Wt) : Bool := decide (a.num = 0)

/-- Modelled from the spec: the undirected edge weight between two
entities — the aggregated weight of the collapsed edges joining them. -/
def Graph.edgeWeight (g : Graph) (u v : Nat) : Wt :=
  (g.relationships.filter (fun r =>
    decide ((r.source_entity_id = u ∧ r.target_entity_id = v) ∨
            (r.source_entity_id = v ∧ r.target_entity_id = u)))).foldr
    (fun r acc => Wt.add (Wt.ofRat r.weight) acc) Wt.zero

/-- Modelled from the spec: Community
`{id, level, member_entity_ids, parent_community_id, summary}`. -/
structure Community where
  id : Nat
  level : Nat
  member_entity_ids : Finset Nat
  parent_community_id : Option Nat
  summary : Option String
deriving DecidableEq

/-- Weighted degree of node `v` in node list `ns` (self excluded). -/
def nodeDeg (w : Nat → Nat → Wt) (ns : List Nat) (v : Nat) : Wt :=
  (ns.filter (fun u => decide (u ≠ v))).foldr (fun u acc => Wt.add (w v u) acc) Wt.zero

/-- Sum of all weighted degrees (twice the total edge weight). -/
def totalDeg (w : Nat → Nat → Wt) (ns : List Nat) : Wt :=
  ns.foldr (fun u acc => Wt.add (nodeDeg w ns u) acc) Wt.zero

/-- Weight from `v` into community `c` (under assignment `f`, `v` itself
excluded). -/
def commW (w : Nat → Nat → Wt) (ns : List Nat) (f : Nat → Nat) (v c : Nat) : Wt :=
  (ns.filter (fun u => decide (u ≠ v ∧ f u = c))).foldr
    (fun u acc => Wt.add (w v u) acc) Wt.zero

/-- Summed degree of community `c` with `v` excluded. -/
def commDeg (w : Nat → Nat → Wt) (ns : List Nat) (f : Nat → Nat) (v c : Nat) : Wt :=
  (ns.filter (fun u => decide (u ≠ v ∧ f u = c))).foldr
    (fun u acc => Wt.add (nodeDeg w ns u) acc) Wt.zero

/-- Modelled from the spec: modularity-style gain of moving `v` into
community `c`, scaled by the (nonnegative) total weight so that no
division is needed; comparisons between candidate moves are unchanged. -/
def moveGain (w : Nat → Nat → Wt) (ns : List Nat) (f : Nat → Nat) (v c : Nat) : Wt :=
  Wt.sub (Wt.mul (Wt.mul ⟨2, 1⟩ (totalDeg w ns)) (commW w ns f v c))
    (Wt.mul (nodeDeg w ns v) (commDeg w ns f v c))

/-- The communities of `v`\'s neighbors (plus `v`\'s own community). -/
def candidateComms (w : Nat → Nat → Wt) (ns : List Nat) (f : Nat → Nat) (v : Nat) :
    List Nat :=
  ((ns.filter (fun u => decide (u ≠ v) && !(Wt.isZero (w v u)))).map f) ++ [f v]

/-- Modelled from the spec: choose the candidate community with the
greatest gain, breaking ties by lowest community id for determinism. -/
def pickBest (gv : Nat → Wt) (ds : List Nat) (c0 : Nat) : Nat :=
  ds.foldl (fun c d =>
    if Wt.lt (gv c) (gv d) || (Wt.eqv (gv d) (gv c) && decide (d < c)) then d
    else c) c0

/-- Community assignment as data: the first binding of `v` wins; an
unbound node is its own community. -/
def lookupA (al : List (Nat × Nat)) (v : Nat) : Nat :=
  match al.find? (fun p => p.1 = v) with
  | some p => p.2
  | none => v

/-- Modelled from the spec: one greedy pass — each node, in ascending id
order, moves to the neighboring community of greatest modularity gain. -/
def movePass (w : Nat → Nat → Wt) (ns : List Nat) (al : List (Nat × Nat)) :
    List (Nat × Nat) :=
  ns.foldl (fun al0 v =>
    (v, pickBest (moveGain w ns (lookupA al0) v)
      (candidateComms w ns (lookupA al0) v) (lookupA al0 v)) :: al0) al

/-- Modelled from the spec: repeat greedy passes until no move improves
the assignment (bounded fuel guarantees termination). -/
def localMoves (w : Nat → Nat → Wt) (ns : List Nat) :
    Nat → List (Nat × Nat) → List (Nat × Nat)
  | 0, al => al
  | Nat.succ fuel, al =>
    let al2 := movePass w ns al
    if ns.all (fun v => lookupA al2 v = lookupA al v) then al
    else localMoves w ns fuel al2

/-- The communities obtained as fibers of an assignment over a node list:
one Community per used community id, members = the nodes assigned to it. -/
def fiberComms (ns : List Nat) (f : Nat → Nat) (lvl : Nat) : List Community :=
  ((ns.map f).dedup).map (fun c =>
    { id := c, level := lvl,
      member_entity_ids := (ns.filter (fun v => f v = c)).toFinset,
      parent_community_id := none, summary := none })

/-- Union of the member sets of a list of communities. -/
def unionMembers (S : List Community) : Finset Nat :=
  S.foldr (fun C acc => C.member_entity_ids ∪ acc) ∅

/-- Modelled from the spec: collapse — each level-`lvl` community is the
union of the whole level-below communities assigned to it. -/
def levelUp (comms : List Community) (f : Nat → Nat) (lvl : Nat) : List Community :=
  ((comms.map (fun C => f C.id)).dedup).map (fun c =>
    { id := c, level := lvl,
      member_entity_ids := unionMembers (comms.filter (fun C => decide (f C.id = c))),
      parent_community_id := none, summary := none })

/-- Modelled from the spec: aggregated edge weight between two collapsed
super-nodes (summed base weight between their entity members). -/
def superWeight (w : Nat → Nat → Wt) (base : List Nat) (comms : List Community)
    (c d : Nat) : Wt :=
  match comms.find? (fun C => decide (C.id = c)),
        comms.find? (fun C => decide (C.id = d)) with
  | some C, some D =>
      (base.filter (fun u => decide (u ∈ C.member_entity_ids))).foldr (fun u acc =>
        Wt.add ((base.filter (fun v2 => decide (v2 ∈ D.member_entity_ids))).foldr
          (fun v2 acc2 => Wt.add (w u v2) acc2) Wt.zero) acc) Wt.zero
  | _, _ => Wt.zero

/-- Modelled from the spec: the maximum level count at which community
detection stops. -/
def maxLevelCount : Nat := 10

/-- Modelled from the spec: the assignment produced by rerunning the
greedy local moves on the collapsed super-node graph (one super-node per
community, visited in ascending id order). -/
def superAssign (w : Nat → Nat → Wt) (base : List Nat) (comms : List Community) :
    Nat → Nat :=
  lookupA (localMoves (superWeight w base comms)
    (List.insertionSort (· ≤ ·) (comms.map (fun C => C.id)).dedup)
    ((List.insertionSort (· ≤ ·) (comms.map (fun C => C.id)).dedup).length + 1) [])

/-- Modelled from the spec: build the higher levels — collapse each
community into a super-node, rerun the greedy local moves, and stop when
a level fails to reduce the number of communities (or fuel runs out). -/
def buildLevels (w : Nat → Nat → Wt) (base : List Nat) :
    Nat → List Community → Nat → List (List Community)
  | 0, _, _ => []
  | Nat.succ fuel, comms, lvl =>
    if (levelUp comms (superAssign w base comms) lvl).length < comms.length then
      levelUp comms (superAssign w base comms) lvl ::
        buildLevels w base fuel (levelUp comms (superAssign w base comms) lvl)
          (lvl + 1)
    else []

/-- Modelled from the spec: the level-0 assignment produced by the greedy
local moves over the graph itself. -/
def baseAssign (g : Graph) : Nat → Nat :=
  lookupA (localMoves g.edgeWeight (entityIdList g)
    ((entityIdList g).length + 1) [])

/-- Modelled from the spec: `detect_communities(graph) -> leveled
partition` — greedy modularity-style local moves give the level-0
partition, then collapse-and-repeat gives the higher levels. -/
def detect_communities (g : Graph) : List (List Community) :=
  fiberComms (entityIdList g) (baseAssign g) 0 ::
    buildLevels g.edgeWeight (entityIdList g) maxLevelCount
      (fiberComms (entityIdList g) (baseAssign g) 0) 1

/-- A well-formed level: the communities cover every listed entity id
exactly once, and each community is a nonempty subset of the entity ids. -/
def GoodLevel (ids : Finset Nat) (comms : List Community) : Prop :=
  (∀ v ∈ ids, ∃! C, C ∈ comms ∧ v ∈ C.member_entity_ids) ∧
  (∀ C ∈ comms, C.member_entity_ids ⊆ ids ∧ C.member_entity_ids.Nonempty)

/-- The relation between a level and the level above it: every community
above is a union of whole communities below, and every community below
lies inside exactly one community above. -/
def LevelStep (P Q : List Community) : Prop :=
  (∀ C2 ∈ Q, ∃ S, (∀ C ∈ S, C ∈ P) ∧ C2.member_entity_ids = unionMembers S) ∧
  (∀ C ∈ P, ∃! C2, C2 ∈ Q ∧ C.member_entity_ids ⊆ C2.member_entity_ids)

/-- The whole level stack is chained: every level is well formed and
relates to its predecessor by `LevelStep`. -/
def LevelChain (ids : Finset Nat) : List Community → List (List Community) → Prop
  | _, [] => True
  | P, Q :: rest => GoodLevel ids Q ∧ LevelStep P Q ∧ LevelChain ids Q rest

/-! ## Spec-modelled Index snapshot serialization -/

/-- Modelled from the spec: chunk metadata persisted in the index
snapshot (`{id, document_id, offset_range, sequence_index}`). -/
structure ChunkMeta where
  id : Nat
  document_id : Nat
  offset_lo : Nat
  offset_hi : Nat
  sequence_index : Nat
deriving DecidableEq

/-- Modelled from the spec: the Index snapshot — a versioned serializable
bundle of the Graph, the Community levels, and chunk metadata. -/
structure IndexSnapshot where
  version : Nat
  graph : Graph
  communityLevels : List (List Community)
  chunks : List ChunkMeta
deriving DecidableEq

/-- Modelled from the spec: the structured serialized record — a tree of
plain values (numbers, strings, arrays). -/
inductive SVal where
  | nat (n : Nat)
  | int (i : Int)
  | str (s : String)
  | arr (l : List SVal)

def encNatSet (s : Finset Nat) : SVal :=
  SVal.arr ((s.sort (· ≤ ·)).map SVal.nat)

def encStrSet (s : Finset String) : SVal :=
  SVal.arr ((s.sort (· ≤ ·)).map SVal.str)

def encOptNat : Option Nat → SVal
  | none => SVal.arr []
  | some n => SVal.arr [SVal.nat n]

def encOptStr : Option String → SVal
  | none => SVal.arr []
  | some s => SVal.arr [SVal.str s]

def encRat (q : ℚ) : SVal := SVal.arr [SVal.int q.num, SVal.nat q.den]

def encEntity (e : Entity) : SVal :=
  SVal.arr [SVal.nat e.id, SVal.str e.canonical_name, SVal.str e.type,
            encStrSet e.aliases, SVal.str e.description,
            encNatSet e.supporting_chunks, SVal.nat e.degree]

def encRel (r : Relationship) : SVal :=
  SVal.arr [SVal.nat r.source_entity_id, SVal.nat r.target_entity_id,
            SVal.str r.relation_type, encRat r.weight,
            encNatSet r.supporting_chunks]

def encCommunity (c : Community) : SVal :=
  SVal.arr [SVal.nat c.id, SVal.nat c.level, encNatSet c.member_entity_ids,
            encOptNat c.parent_community_id, encOptStr c.summary]

def encChunkMeta (c : ChunkMeta) : SVal :=
  SVal.arr [SVal.nat c.id, SVal.nat c.document_id, SVal.nat c.offset_lo,
            SVal.nat c.offset_hi, SVal.nat c.sequence_index]

def encGraph (g : Graph) : SVal :=
  SVal.arr [SVal.arr (g.entities.map encEntity),
            SVal.arr (g.relationships.map encRel)]

/-- Modelled from the spec: serialize an index snapshot into the
structured record. -/
def serialize (idx : IndexSnapshot) : SVal :=
  SVal.arr [SVal.nat idx.version, encGraph idx.graph,
            SVal.arr (idx.communityLevels.map
              (fun lvl => SVal.arr (lvl.map encCommunity))),
            SVal.arr (idx.chunks.map encChunkMeta)]

/-- Decode every element of a list, failing if any element fails. -/
def traverseO {α : Type} (f : SVal → Option α) : List SVal → Option (List α)
  | [] => some []
  | x :: xs =>
    match f x, traverseO f xs with
    | some y, some ys => some (y :: ys)
    | _, _ => none

def decNat : SVal → Option Nat
  | SVal.nat n => some n
  | _ => none

def decStr : SVal → Option String
  | SVal.str s => some s
  | _ => none

def decNatSet : SVal → Option (Finset Nat)
  | SVal.arr l => (traverseO decNat l).map List.toFinset
  | _ => none

def decStrSet : SVal → Option (Finset String)
  | SVal.arr l => (traverseO decStr l).map List.toFinset
  | _ => none

def decOptNat : SVal → Option (Option Nat)
  | SVal.arr [] => some none
  | SVal.arr [v] => (decNat v).map some
  | _ => none

def decOptStr : SVal → Option (Option String)
  | SVal.arr [] => some none
  | SVal.arr [v] => (decStr v).map some
  | _ => none

def decRat : SVal → Option ℚ
  | SVal.arr [SVal.int n, SVal.nat d] => some ((n : ℚ) / (d : ℚ))
  | _ => none

def decEntity : SVal → Option Entity
  | SVal.arr [i, cn, ty, al, de, sc, dg] => do
    let i2 ← decNat i
    let cn2 ← decStr cn
    let ty2 ← decStr ty
    let al2 ← decStrSet al
    let de2 ← decStr de
    let sc2 ← decNatSet sc
    let dg2 ← decNat dg
    pure ⟨i2, cn2, ty2, al2, de2, sc2, dg2⟩
  | _ => none

def decRel : SVal → Option Relationship
  | SVal.arr [s, t, ty, w, sc] => do
    let s2 ← decNat s
    let t2 ← decNat t
    let ty2 ← decStr ty
    let w2 ← decRat w
    let sc2 ← decNatSet sc
    pure ⟨s2, t2, ty2, w2, sc2⟩
  | _ => none

def decCommunity : SVal → Option Community
  | SVal.arr [i, lv, mem, pa, su] => do
    let i2 ← decNat i
    let lv2 ← decNat lv
    let mem2 ← decNatSet mem
    let pa2 ← decOptNat pa
    let su2 ← decOptStr su
    pure ⟨i2, lv2, mem2, pa2, su2⟩
  | _ => none

def decChunkMeta : SVal → Option ChunkMeta
  | SVal.arr [i, d, lo, hi, sq] => do
    let i2 ← decNat i
    let d2 ← decNat d
    let lo2 ← decNat lo
    let hi2 ← decNat hi
    let sq2 ← decNat sq
    pure ⟨i2, d2, lo2, hi2, sq2⟩
  | _ => none

def decGraph : SVal → Option Graph
  | SVal.arr [SVal.arr es, SVal.arr rs] => do
    let es2 ← traverseO decEntity es
    let rs2 ← traverseO decRel rs
    pure ⟨es2, rs2⟩
  | _ => none

def decLevel : SVal → Option (List Community)
  | SVal.arr l => traverseO decCommunity l
  | _ => none

/-- Modelled from the spec: deserialize a structured record back into an
index snapshot, failing on any schema mismatch. -/
def deserialize : SVal → Option IndexSnapshot
  | SVal.arr [v, gr, SVal.arr lv, SVal.arr ch] => do
    let v2 ← decNat v
    let gr2 ← decGraph gr
    let lv2 ← traverseO decLevel lv
    let ch2 ← traverseO decChunkMeta ch
    pure ⟨v2, gr2, lv2, ch2⟩
  | _ => none

/-! ## Spec-modelled Query Engine -/

/-- Modelled from the spec: the three retrieval modes. -/
inductive QueryMode where
  | localSearch
  | globalSearch
  | hybridSearch
deriving DecidableEq, Repr

/-- Modelled from the spec: query-time error taxonomy entries. -/
inductive QueryError where
  | RetrievalTimeout
  | ModelUnavailable
deriving DecidableEq, Repr

/-- Modelled from the spec: one Completion Service response. -/
inductive CompletionResult where
  | ok (text : String)
  | timeout
  | unavailable
deriving DecidableEq, Repr

/-- Modelled from the spec: the Completion Service, as a function of the
call index and the prompt (the call index lets a service behave
differently across the initial call and the retry). -/
def CompletionService : Type := Nat → String → CompletionResult

/-- Modelled from the spec: the shortened prompt used for the single
retry. -/
def shortenPrompt (p : String) : String := p.take (p.length / 2)

/-- Modelled from the spec: the evidence prompt assembled for each
retrieval mode. -/
def assemblePrompt (mode : QueryMode) (question : String) : String :=
  match mode with
  | QueryMode.localSearch => "local subgraph evidence: " ++ question
  | QueryMode.globalSearch => "community summaries: " ++ question
  | QueryMode.hybridSearch => "merged evidence: " ++ question

/-- Modelled from the spec: drive the Completion Service — on timeout or
unavailability, exactly one retry with a shortened prompt, then the error
is surfaced to the caller; returns the outcome and the number of
Completion Service calls made. -/
def runQuery (svc : CompletionService) (prompt : String) :
    Except QueryError String × Nat :=
  match svc 0 prompt with
  | CompletionResult.ok t => (Except.ok t, 1)
  | CompletionResult.timeout =>
    match svc 1 (shortenPrompt prompt) with
    | CompletionResult.ok t => (Except.ok t, 2)
    | CompletionResult.timeout => (Except.error QueryError.RetrievalTimeout, 2)
    | CompletionResult.unavailable => (Except.error QueryError.ModelUnavailable, 2)
  | CompletionResult.unavailable =>
    match svc 1 (shortenPrompt prompt) with
    | CompletionResult.ok t => (Except.ok t, 2)
    | CompletionResult.timeout => (Except.error QueryError.RetrievalTimeout, 2)
    | CompletionResult.unavailable => (Except.error QueryError.ModelUnavailable, 2)

/-- Modelled from the spec: a query in a given retrieval mode. -/
def query (mode : QueryMode) (svc : CompletionService) (question : String) :
    Except QueryError String × Nat :=
  runQuery svc (assemblePrompt mode question)

/-! ## Spec-modelled Extractor and ingestion run -/

/-- Modelled from the spec: Chunk
`{id, document_id, text, offset_range, sequence_index}`. -/
structure Chunk where
  id : Nat
  document_id : Nat
  text : String
  offset_lo : Nat
  offset_hi : Nat
  sequence_index : Nat
deriving DecidableEq

/-- Modelled from the spec: EntityMention
`{chunk_id, surface_text, type, description, confidence}`. -/
structure EntityMention where
  chunk_id : Nat
  surface_text : String
  type : String
  description : String
  confidence : ℚ
deriving DecidableEq

/-- Modelled from the spec: RelationshipMention
`{chunk_id, source_surface, target_surface, relation_text, strength}`. -/
structure RelationshipMention where
  chunk_id : Nat
  source_surface : String
  target_surface : String
  relation_text : String
  strength : ℚ
deriving DecidableEq

/-- Modelled from the spec: the Extractor's error taxonomy entry. -/
inductive ExtractError where
  | ExtractionParseError
deriving DecidableEq, Repr

/-- Modelled from the spec: validating completion output against the
expected schema yields parsed mentions or a parse error message. -/
def ParseOutcome : Type :=
  Except String (List EntityMention × List RelationshipMention)

/-- Modelled from the spec: the default bounded number of repair
re-prompts (2). -/
def maxRepairAttempts : Nat := 2

/-- Modelled from the spec: the extraction prompt; on a repair attempt
the previous parse error is appended. -/
def extractionPrompt (c : Chunk) (err : Option String) : String :=
  match err with
  | none => "extract entities and relations: " ++ c.text
  | some e =>
    "extract entities and relations: " ++ c.text ++ " previous parse error: " ++ e

/-- Modelled from the spec: attempt completion+parse, re-prompting with
the parse error appended while repair attempts remain; returns the
outcome and the number of parse attempts made. -/
def extractLoop (complete : Nat → String → String)
    (parse : String → ParseOutcome) (c : Chunk) :
    Nat → Nat → Option String →
    Except ExtractError (List EntityMention × List RelationshipMention) × Nat
  | 0, attempt, err =>
    match parse (complete attempt (extractionPrompt c err)) with
    | Except.ok res => (Except.ok res, attempt + 1)
    | Except.error _ => (Except.error ExtractError.ExtractionParseError, attempt + 1)
  | Nat.succ r, attempt, err =>
    match parse (complete attempt (extractionPrompt c err)) with
    | Except.ok res => (Except.ok res, attempt + 1)
    | Except.error e => extractLoop complete parse c r (attempt + 1) (some e)

/-- Modelled from the spec: `extract(chunk)` with the default bounded
repair policy. -/
def extract (complete : Nat → String → String) (parse : String → ParseOutcome)
    (c : Chunk) :
    Except ExtractError (List EntityMention × List RelationshipMention) × Nat :=
  extractLoop complete parse c maxRepairAttempts 0 none

/-- Modelled from the spec: outcome of an ingestion run — per-chunk
errors are isolated and counted; quarantined chunks stay in the corpus. -/
structure IngestReport where
  corpus : List Chunk
  processed : List Nat
  quarantined : List Nat
deriving DecidableEq

/-- Modelled from the spec: process every chunk of the batch; a chunk
whose extraction fails after the bounded repairs is recorded as
quarantined (skipped for extraction, retained in the corpus) and the run
continues — the run itself always produces a report. -/
def ingestRun (complete : Nat → String → String)
    (parse : Chunk → String → ParseOutcome) (chunks : List Chunk) :
    IngestReport :=
  { corpus := chunks,
    processed := (chunks.filter
      (fun c => ((extract complete (parse c) c).1).isOk)).map Chunk.id,
    quarantined := (chunks.filter
      (fun c => !((extract complete (parse c) c).1).isOk)).map Chunk.id }

/-- Union of the alias sets of a list of entities. -/
def aliasU (l : List Entity) : Finset String :=
  l.foldr (fun a acc => a.aliases ∪ acc) ∅

/-- Union of the supporting chunk sets of a list of entities. -/
def chunkU (l : List Entity) : Finset Nat :=
  l.foldr (fun a acc => a.supporting_chunks ∪ acc) ∅

/-! ## Concrete inputs used by the witnesses -/

/-- A concrete chunk used by the extraction witness. -/
def chW : Chunk := ⟨1, 1, "text", 0, 4, 0⟩

/-- A concrete entity with a given id. -/
def entW (i : Nat) : Entity := ⟨i, "n", "T", ∅, "", ∅, 0⟩

/-- A concrete graph on four entities with two heavy pairs (1–2, 3–4)
joined by one light edge (2–3). -/
def gW4 : Graph :=
  { entities := [entW 1, entW 2, entW 3, entW 4],
    relationships :=
      [⟨1, 2, "r", 3, ∅⟩, ⟨3, 4, "r", 3, ∅⟩, ⟨2, 3, "r", 1, ∅⟩] }

/-! ## Theorems -/

/-! ### Tensor (claim C10) -/

/-- C10: every `Tensor`, however constructed (default or from any shape
and dtype), has constant stub accessors: `byte_size` is 0, `shape` is the
empty vector, and `raw` and `data` are null. -/
theorem C10_tensor_accessors_are_stubs :
    ∀ t : Tensor, t.byte_size = 0 ∧ t.shape = [] ∧ t.raw = none ∧
      ∀ α : Type, Tensor.data α t = none :=
  fun _ => ⟨rfl, rfl, rfl, fun _ => rfl⟩

/-! ### Command-line parsing (claims C8, C9) -/

theorem parseModelPath_of_no_pair :
    ∀ (args : List String) (acc : String), hasModelPair args = false →
      parseModelPath args acc = acc := by
  intro args
  induction args with
  | nil => intro acc _; rfl
  | cons a rest ih =>
    intro acc h
    cases rest with
    | nil =>
      by_cases ha : a = "--model" <;> simp [parseModelPath, ha]
    | cons v rest2 =>
      simp only [hasModelPair, Bool.or_eq_false_iff, decide_eq_false_iff_not] at h
      simp [parseModelPath, h.1, ih acc h.2]

/-- C8: when the argument list contains no occurrence of `"--model"`
followed by a further argument, `main` leaves `model_path` empty, prints
the usage message and returns exit code 1 without attempting to load a
model. -/
theorem C8_no_model_flag_prints_usage :
    ∀ args : List String, hasModelPair args = false →
      mainRun args = { model_path := "", printed_usage := true,
                       attempted_load := false, early_exit := some 1 } := by
  intro args h
  unfold mainRun
  rw [parseModelPath_of_no_pair args "" h]
  rfl

theorem C8_no_model_flag_prints_usage_witness :
    hasModelPair ["--verbose", "--model"] = false ∧
    mainRun ["--verbose", "--model"] =
      { model_path := "", printed_usage := true,
        attempted_load := false, early_exit := some 1 } :=
  ⟨by decide, C8_no_model_flag_prints_usage ["--verbose", "--model"] (by decide)⟩

/-- C9 (counterexample): on the argument list
`["--model", "--model", "x"]`, the last occurrence of `"--model"` that
has a following argument is the second one, whose follower is `"x"`; the
code instead consumes the second `"--model"` as the value of the first
and sets `model_path = "--model"`. -/
theorem C9_last_occurrence_counterexample :
    (mainRun ["--model", "--model", "x"]).model_path = "--model" ∧
    specLastModelValue ["--model", "--model", "x"] "" = "x" ∧
    (mainRun ["--model", "--model", "x"]).model_path ≠
      specLastModelValue ["--model", "--model", "x"] "" := by
  refine ⟨rfl, rfl, ?_⟩
  decide

theorem mainRun_model_path (args : List String) :
    (mainRun args).model_path = parseModelPath args "" := by
  unfold mainRun
  by_cases h : parseModelPath args "" = "" <;> simp [h]

theorem parseModelPath_empty_or_follower :
    ∀ (n : Nat) (args : List String) (acc : String), args.length ≤ n →
      parseModelPath args acc = acc ∨
      ∃ i, args.get? i = some "--model" ∧
        args.get? (i + 1) = some (parseModelPath args acc) := by
  intro n
  induction n with
  | zero =>
    intro args acc h
    rw [Nat.le_zero, List.length_eq_zero] at h
    subst h
    left; rfl
  | succ n ih =>
    intro args acc h
    match args with
    | [] => left; rfl
    | a :: rest =>
      by_cases ha : a = "--model"
      · match rest with
        | [] =>
          left; simp [parseModelPath, ha]
        | v :: rest2 =>
          have hlen : rest2.length ≤ n := by
            simp only [List.length_cons] at h
            omega
          have hred : parseModelPath (a :: v :: rest2) acc = parseModelPath rest2 v := by
            simp [parseModelPath, ha]
          rcases ih rest2 v hlen with h1 | ⟨i, h2, h3⟩
          · right
            refine ⟨0, by simp [ha], ?_⟩
            rw [hred, h1]
            rfl
          · right
            refine ⟨i + 2, by simpa using h2, ?_⟩
            rw [hred]
            simpa using h3
      · have hlen : rest.length ≤ n := by
          simp only [List.length_cons] at h
          omega
        have hred : parseModelPath (a :: rest) acc = parseModelPath rest acc := by
          rw [parseModelPath.eq_def]
          simp [ha]
        rcases ih rest acc hlen with h1 | ⟨i, h2, h3⟩
        · left; rw [hred, h1]
        · right
          refine ⟨i + 1, by simpa using h2, ?_⟩
          rw [hred]
          simpa using h3

/-- C9 (amended): main's loop performs a left-to-right scan in which each
`"--model"` that has a following argument consumes that argument as the
new `model_path` (the consumed value is skipped, never examined as a
flag); consequently `model_path` is either left empty or equals the
argument immediately following some occurrence of `"--model"`. -/
theorem C9_amended_consuming_scan :
    ∀ args : List String,
      (mainRun args).model_path = "" ∨
      ∃ i, args.get? i = some "--model" ∧
        args.get? (i + 1) = some ((mainRun args).model_path) := by
  intro args
  rw [mainRun_model_path]
  exact parseModelPath_empty_or_follower args.length args "" le_rfl

/-! ### Graph Store self-loop rejection (claim C5) -/

theorem upsert_relationship_self_loop (g : Graph) (r : Relationship)
    (h : r.source_entity_id = r.target_entity_id) :
    g.upsert_relationship r = Except.error GraphError.GraphInvariantViolation := by
  unfold Graph.upsert_relationship
  rw [if_pos h]

theorem applyOp_self_loop (g : Graph) (r : Relationship)
    (h : r.source_entity_id = r.target_entity_id) :
    applyOp g (GraphOp.upsertRel r) = g := by
  show (match g.upsert_relationship r with
        | Except.ok g2 => g2
        | Except.error _ => g) = g
  rw [upsert_relationship_self_loop g r h]

/-- C5: a relationship whose source equals its target (a self-loop) is
rejected by the Graph Store with `GraphInvariantViolation`; the rejection
is fatal only to that single mutation — it leaves the graph unchanged and
the remainder of the run proceeds exactly as if the mutation had not been
issued. -/
theorem C5_self_loop_rejected_and_isolated :
    ∀ (g : Graph) (r : Relationship) (pre post : List GraphOp),
      r.source_entity_id = r.target_entity_id →
      g.upsert_relationship r = Except.error GraphError.GraphInvariantViolation ∧
      applyOp g (GraphOp.upsertRel r) = g ∧
      (pre ++ GraphOp.upsertRel r :: post).foldl applyOp g =
        (pre ++ post).foldl applyOp g := by
  intro g r pre post h
  refine ⟨upsert_relationship_self_loop g r h, applyOp_self_loop g r h, ?_⟩
  rw [List.foldl_append, List.foldl_append, List.foldl_cons,
    applyOp_self_loop _ r h]

theorem C5_self_loop_rejected_and_isolated_witness :
    Graph.empty.upsert_relationship ⟨3, 3, "r", 1, ∅⟩ =
      Except.error GraphError.GraphInvariantViolation ∧
    applyOp Graph.empty (GraphOp.upsertRel ⟨3, 3, "r", 1, ∅⟩) = Graph.empty ∧
    ([GraphOp.upsertEntity (entW 1)] ++
      GraphOp.upsertRel ⟨3, 3, "r", 1, ∅⟩ :: [GraphOp.upsertEntity (entW 2)]).foldl
        applyOp Graph.empty =
      ([GraphOp.upsertEntity (entW 1)] ++ [GraphOp.upsertEntity (entW 2)]).foldl
        applyOp Graph.empty :=
  C5_self_loop_rejected_and_isolated Graph.empty ⟨3, 3, "r", 1, ∅⟩
    [GraphOp.upsertEntity (entW 1)] [GraphOp.upsertEntity (entW 2)] rfl

/-! ### Query Engine retry behaviour (claim C6) -/

/-- C6: in every retrieval mode, if the Completion Service always times
out, the query fails with `RetrievalTimeout` after exactly one retry (two
Completion Service calls in total) and surfaces the error to the caller;
the engine is a total function, so it never retries indefinitely or
hangs. -/
theorem C6_always_timeout_fails_after_one_retry :
    ∀ (mode : QueryMode) (svc : CompletionService) (question : String),
      (∀ n p, svc n p = CompletionResult.timeout) →
      query mode svc question = (Except.error QueryError.RetrievalTimeout, 2) := by
  intro mode svc question h
  unfold query runQuery
  rw [h, h]

theorem C6_always_timeout_fails_after_one_retry_witness :
    query QueryMode.globalSearch (fun _ _ => CompletionResult.timeout) "question" =
      (Except.error QueryError.RetrievalTimeout, 2) :=
  C6_always_timeout_fails_after_one_retry QueryMode.globalSearch
    (fun _ _ => CompletionResult.timeout) "question" (fun _ _ => rfl)

/-! ### Merge algebra (claim C2) -/

theorem absorbAll_aliases : ∀ (l : List Entity) (e : Entity),
    (absorbAll e l).aliases = e.aliases ∪ aliasU l := by
  intro l
  induction l with
  | nil => intro e; simp [absorbAll, aliasU]
  | cons a l ih =>
    intro e
    rw [show absorbAll e (a :: l) = absorbAll (mergeEntity a e) l from rfl, ih]
    simp only [mergeEntity, aliasU, List.foldr_cons]
    rw [Finset.union_assoc, Finset.union_left_comm]

theorem absorbAll_chunks : ∀ (l : List Entity) (e : Entity),
    (absorbAll e l).supporting_chunks = e.supporting_chunks ∪ chunkU l := by
  intro l
  induction l with
  | nil => intro e; simp [absorbAll, chunkU]
  | cons a l ih =>
    intro e
    rw [show absorbAll e (a :: l) = absorbAll (mergeEntity a e) l from rfl, ih]
    simp only [mergeEntity, chunkU, List.foldr_cons]
    rw [Finset.union_assoc, Finset.union_left_comm]

theorem aliasU_perm : ∀ {l1 l2 : List Entity}, l1.Perm l2 → aliasU l1 = aliasU l2 := by
  intro l1 l2 h
  induction h with
  | nil => rfl
  | cons x _ ih => simp only [aliasU, List.foldr_cons] at ih ⊢; rw [ih]
  | swap x y l =>
    simp only [aliasU, List.foldr_cons]
    exact Finset.union_left_comm _ _ _
  | trans _ _ ih1 ih2 => rw [ih1, ih2]

theorem chunkU_perm : ∀ {l1 l2 : List Entity}, l1.Perm l2 → chunkU l1 = chunkU l2 := by
  intro l1 l2 h
  induction h with
  | nil => rfl
  | cons x _ ih => simp only [chunkU, List.foldr_cons] at ih ⊢; rw [ih]
  | swap x y l =>
    simp only [chunkU, List.foldr_cons]
    exact Finset.union_left_comm _ _ _
  | trans _ _ ih1 ih2 => rw [ih1, ih2]

/-- C2: merging two entities that resolve to the same canonical identity
yields, in either order, a canonical entity whose alias set and
supporting-chunk set are the unions of the originals'; merge is
commutative and associative in effect, and absorbing a set of duplicate
entities gives the same alias and chunk sets under any arrival order. -/
theorem C2_merge_commutative_associative :
    ∀ (a b c e : Entity) (l1 l2 : List Entity), l1.Perm l2 →
      (mergeEntity a b).aliases = a.aliases ∪ b.aliases ∧
      (mergeEntity a b).supporting_chunks =
        a.supporting_chunks ∪ b.supporting_chunks ∧
      (mergeEntity a b).aliases = (mergeEntity b a).aliases ∧
      (mergeEntity a b).supporting_chunks = (mergeEntity b a).supporting_chunks ∧
      (mergeEntity (mergeEntity a b) c).aliases =
        (mergeEntity a (mergeEntity b c)).aliases ∧
      (mergeEntity (mergeEntity a b) c).supporting_chunks =
        (mergeEntity a (mergeEntity b c)).supporting_chunks ∧
      (absorbAll e l1).aliases = (absorbAll e l2).aliases ∧
      (absorbAll e l1).supporting_chunks = (absorbAll e l2).supporting_chunks := by
  intro a b c e l1 l2 hperm
  refine ⟨rfl, rfl, Finset.union_comm _ _, Finset.union_comm _ _,
    Finset.union_assoc _ _ _, Finset.union_assoc _ _ _, ?_, ?_⟩
  · rw [absorbAll_aliases, absorbAll_aliases, aliasU_perm hperm]
  · rw [absorbAll_chunks, absorbAll_chunks, chunkU_perm hperm]

theorem C2_merge_commutative_associative_witness :
    ((mergeEntity (entW 1) (entW 2)).aliases =
        (entW 1).aliases ∪ (entW 2).aliases ∧
      (mergeEntity (entW 1) (entW 2)).supporting_chunks =
        (entW 1).supporting_chunks ∪ (entW 2).supporting_chunks ∧
      (mergeEntity (entW 1) (entW 2)).aliases =
        (mergeEntity (entW 2) (entW 1)).aliases ∧
      (mergeEntity (entW 1) (entW 2)).supporting_chunks =
        (mergeEntity (entW 2) (entW 1)).supporting_chunks ∧
      (mergeEntity (mergeEntity (entW 1) (entW 2)) (entW 3)).aliases =
        (mergeEntity (entW 1) (mergeEntity (entW 2) (entW 3))).aliases ∧
      (mergeEntity (mergeEntity (entW 1) (entW 2)) (entW 3)).supporting_chunks =
        (mergeEntity (entW 1) (mergeEntity (entW 2) (entW 3))).supporting_chunks ∧
      (absorbAll (entW 4) [entW 1, entW 2]).aliases =
        (absorbAll (entW 4) [entW 2, entW 1]).aliases ∧
      (absorbAll (entW 4) [entW 1, entW 2]).supporting_chunks =
        (absorbAll (entW 4) [entW 2, entW 1]).supporting_chunks) :=
  C2_merge_commutative_associative (entW 1) (entW 2) (entW 3) (entW 4)
    [entW 1, entW 2] [entW 2, entW 1] (List.Perm.swap (entW 2) (entW 1) [])

/-! ### Graph invariant: no dangling edges (claim C1) -/

theorem hasEntity_iff (g : Graph) (i : Nat) :
    g.hasEntity i = true ↔ ∃ e ∈ g.entities, e.id = i := by
  unfold Graph.hasEntity
  simp [List.any_eq_true]

theorem any_id_map_preserve {l : List Entity} {m : Entity → Entity}
    (hm : ∀ e, (m e).id = e.id) (i : Nat) :
    (l.map m).any (fun e => e.id = i) = l.any (fun e => e.id = i) := by
  induction l with
  | nil => rfl
  | cons e l ih => simp [hm, ih]

theorem upsert_entity_relationships (g : Graph) (e : Entity) :
    (g.upsert_entity e).relationships = g.relationships := by
  unfold Graph.upsert_entity
  by_cases h : g.hasEntity e.id = true <;> simp [h]

theorem hasEntity_upsert_entity (g : Graph) (e : Entity) (i : Nat)
    (h : g.hasEntity i = true) : (g.upsert_entity e).hasEntity i = true := by
  rw [hasEntity_iff] at h ⊢
  obtain ⟨x, hx, hxi⟩ := h
  unfold Graph.upsert_entity
  by_cases hc : g.hasEntity e.id = true
  · simp only [hc, if_true]
    refine ⟨if x.id = e.id then mergeEntity e x else x, ?_, ?_⟩
    · exact List.mem_map.mpr ⟨x, hx, rfl⟩
    · by_cases hxe : x.id = e.id
      · rw [if_pos hxe]
        exact hxi
      · rw [if_neg hxe]
        exact hxi
  · simp only [hc, if_false]
    exact ⟨x, List.mem_cons_of_mem _ hx, hxi⟩

theorem wf_upsert_entity {g : Graph} (h : g.wf) (e : Entity) :
    (g.upsert_entity e).wf := by
  intro r hr
  rw [upsert_entity_relationships] at hr
  obtain ⟨h1, h2⟩ := h r hr
  exact ⟨hasEntity_upsert_entity g e _ h1, hasEntity_upsert_entity g e _ h2⟩

theorem wf_upsert_relationship {g : Graph} (h : g.wf) {r : Relationship} {g2 : Graph}
    (hok : g.upsert_relationship r = Except.ok g2) : g2.wf := by
  unfold Graph.upsert_relationship at hok
  by_cases hsl : r.source_entity_id = r.target_entity_id
  · rw [if_pos hsl] at hok
    exact Except.noConfusion hok
  · rw [if_neg hsl] at hok
    by_cases hend : (g.hasEntity r.source_entity_id &&
        g.hasEntity r.target_entity_id) = true
    · rw [if_pos hend] at hok
      obtain ⟨hs, ht⟩ := Bool.and_eq_true_iff.mp hend
      by_cases hdup : g.relationships.any (fun s => s.sameKey r) = true
      · rw [if_pos hdup] at hok
        injection hok with hX
        subst hX
        intro s' hs'
        obtain ⟨s, hsmem, rfl⟩ := List.mem_map.mp hs'
        have hends := h s hsmem
        by_cases hk : s.sameKey r = true
        · rw [if_pos hk]
          exact hends
        · rw [if_neg hk]
          exact hends
      · rw [if_neg hdup] at hok
        injection hok with hX
        subst hX
        have hpres : ∀ i,
            (Graph.mk (g.entities.map (fun e =>
              if e.id = r.source_entity_id || e.id = r.target_entity_id then
                { e with degree := e.degree + 1 }
              else e)) (r :: g.relationships)).hasEntity i = g.hasEntity i := by
          intro i
          show (g.entities.map _).any _ = g.entities.any _
          exact any_id_map_preserve (fun e => by split <;> rfl) i
        intro s' hs'
        rcases List.mem_cons.mp hs' with rfl | hmem
        · rw [hpres, hpres]
          exact ⟨hs, ht⟩
        · rw [hpres, hpres]
          exact h s' hmem
    · rw [if_neg hend] at hok
      exact Except.noConfusion hok

theorem find?_id_some {l : List Entity} {b : Nat} {eb : Entity}
    (hf : l.find? (fun e => e.id = b) = some eb) :
    eb ∈ l ∧ eb.id = b := by
  have h1 := List.mem_of_find?_eq_some hf
  have h2 := List.find?_some hf
  simp only [decide_eq_true_eq] at h2
  exact ⟨h1, h2⟩

theorem wf_merge_entities {g : Graph} (h : g.wf) {a b : Nat} {g2 : Graph}
    (hok : g.merge_entities a b = Except.ok g2) : g2.wf := by
  unfold Graph.merge_entities at hok
  by_cases hab : a = b
  · rw [if_pos hab] at hok
    exact Except.noConfusion hok
  · rw [if_neg hab] at hok
    cases hfa : g.entities.find? (fun e => e.id = a) with
    | none =>
      rw [hfa] at hok
      exact Except.noConfusion hok
    | some ea =>
      cases hfb : g.entities.find? (fun e => e.id = b) with
      | none =>
        rw [hfa, hfb] at hok
        exact Except.noConfusion hok
      | some eb =>
        rw [hfa, hfb] at hok
        injection hok with hX
        subst hX
        obtain ⟨hbmem, hbid⟩ := find?_id_some hfb
        have hpres : ∀ (i : Nat) (rels : List Relationship), i ≠ a →
            g.hasEntity i = true →
            (Graph.mk ((g.entities.filter (fun e => e.id ≠ a)).map
              (fun e => if e.id = b then mergeEntity ea e else e))
              rels).hasEntity i = true := by
          intro i rels hia hi
          rw [hasEntity_iff] at hi ⊢
          obtain ⟨x, hx, hxi⟩ := hi
          refine ⟨if x.id = b then mergeEntity ea x else x, ?_, ?_⟩
          · apply List.mem_map.mpr
            refine ⟨x, ?_, rfl⟩
            apply List.mem_filter.mpr
            exact ⟨hx, by simp [hxi, hia]⟩
          · by_cases hxb : x.id = b
            · rw [if_pos hxb]
              exact hxi
            · rw [if_neg hxb]
              exact hxi
        have hbE : g.hasEntity b = true := (hasEntity_iff g b).mpr ⟨eb, hbmem, hbid⟩
        intro s' hs'
        obtain ⟨hs'mem, _⟩ := List.mem_filter.mp hs'
        obtain ⟨s, hsmem, rfl⟩ := List.mem_map.mp hs'mem
        obtain ⟨hsrc, htgt⟩ := h s hsmem
        constructor
        · show (Graph.mk _ _).hasEntity (remapId a b s.source_entity_id) = true
          unfold remapId
          by_cases hsa : s.source_entity_id = a
          · rw [if_pos hsa]
            exact hpres b _ (Ne.symm hab) hbE
          · rw [if_neg hsa]
            exact hpres _ _ hsa hsrc
        · show (Graph.mk _ _).hasEntity (remapId a b s.target_entity_id) = true
          unfold remapId
          by_cases hta : s.target_entity_id = a
          · rw [if_pos hta]
            exact hpres b _ (Ne.symm hab) hbE
          · rw [if_neg hta]
            exact hpres _ _ hta htgt

theorem wf_applyOp {g : Graph} (h : g.wf) (op : GraphOp) : (applyOp g op).wf := by
  cases op with
  | upsertEntity e => exact wf_upsert_entity h e
  | upsertRel r =>
    show (match g.upsert_relationship r with
          | Except.ok g2 => g2
          | Except.error _ => g).wf
    cases hok : g.upsert_relationship r with
    | ok g2 => exact wf_upsert_relationship h hok
    | error er => exact h
  | mergeEnts a b =>
    show (match g.merge_entities a b with
          | Except.ok g2 => g2
          | Except.error _ => g).wf
    cases hok : g.merge_entities a b with
    | ok g2 => exact wf_merge_entities h hok
    | error er => exact h

theorem wf_foldl : ∀ (ops : List GraphOp) (g : Graph), g.wf →
    (ops.foldl applyOp g).wf := by
  intro ops
  induction ops with
  | nil => intro g h; exact h
  | cons op ops ih => intro g h; exact ih _ (wf_applyOp h op)

theorem wf_empty : Graph.empty.wf := by
  intro r hr
  exact absurd hr (List.not_mem_nil r)

/-- C1: after any sequence of resolved graph mutations starting from the
empty graph, every stored Relationship's source and target ids exist in
the Entity set (no dangling edges); and an `upsert_relationship` whose
source or target endpoint is missing is rejected with
`GraphInvariantViolation` rather than stored. -/
theorem C1_no_dangling_edges :
    (∀ ops : List GraphOp, (runOps ops).wf) ∧
    (∀ (g : Graph) (r : Relationship),
      (g.hasEntity r.source_entity_id = false ∨
       g.hasEntity r.target_entity_id = false) →
      g.upsert_relationship r =
        Except.error GraphError.GraphInvariantViolation) := by
  constructor
  · intro ops
    exact wf_foldl ops Graph.empty wf_empty
  · intro g r h
    unfold Graph.upsert_relationship
    by_cases hsl : r.source_entity_id = r.target_entity_id
    · rw [if_pos hsl]
    · rw [if_neg hsl]
      have hcond : (g.hasEntity r.source_entity_id &&
          g.hasEntity r.target_entity_id) = false := by
        rcases h with h | h <;> simp [h]
      simp [hcond]

theorem C1_no_dangling_edges_witness :
    (runOps [GraphOp.upsertEntity (entW 1), GraphOp.upsertEntity (entW 2),
             GraphOp.upsertRel ⟨1, 2, "r", 1, ∅⟩]).wf ∧
    Graph.empty.upsert_relationship ⟨1, 2, "r", 1, ∅⟩ =
      Except.error GraphError.GraphInvariantViolation :=
  ⟨C1_no_dangling_edges.1 _,
   C1_no_dangling_edges.2 Graph.empty ⟨1, 2, "r", 1, ∅⟩ (Or.inl (by decide))⟩

/-! ### Extraction repair bound and quarantine (claim C7) -/

theorem extractLoop_always_fails
    (complete : Nat → String → String) (parse : String → ParseOutcome) (c : Chunk)
    (hfail : ∀ s, (parse s).isOk = false) :
    ∀ (reps attempt : Nat) (err : Option String),
      extractLoop complete parse c reps attempt err =
        (Except.error ExtractError.ExtractionParseError, attempt + reps + 1) := by
  intro reps
  induction reps with
  | zero =>
    intro attempt err
    unfold extractLoop
    cases hp : parse (complete attempt (extractionPrompt c err)) with
    | ok res =>
      have hno := hfail (complete attempt (extractionPrompt c err))
      rw [hp] at hno
      exact absurd hno (by simp [Except.isOk, Except.toBool])
    | error e => rfl
  | succ reps ih =>
    intro attempt err
    unfold extractLoop
    cases hp : parse (complete attempt (extractionPrompt c err)) with
    | ok res =>
      have hno := hfail (complete attempt (extractionPrompt c err))
      rw [hp] at hno
      exact absurd hno (by simp [Except.isOk, Except.toBool])
    | error e =>
      show extractLoop complete parse c reps (attempt + 1) (some e) =
        (Except.error ExtractError.ExtractionParseError, attempt + (reps + 1) + 1)
      rw [ih (attempt + 1) (some e)]
      congr 1
      omega

theorem extract_always_fails
    (complete : Nat → String → String) (parse : String → ParseOutcome) (c : Chunk)
    (hfail : ∀ s, (parse s).isOk = false) :
    extract complete parse c =
      (Except.error ExtractError.ExtractionParseError, maxRepairAttempts + 1) := by
  unfold extract
  rw [extractLoop_always_fails complete parse c hfail maxRepairAttempts 0 none]
  norm_num

/-- C7: a chunk whose completion output can never be parsed against the
expected schema makes `extract` fail with `ExtractionParseError` only
after the bounded repair attempts (default 2 re-prompts, hence 3 parse
attempts in total); the ingestion run records the chunk as quarantined,
retains it in the corpus, accounts for every chunk of the batch, and does
not abort. -/
theorem C7_unparseable_chunk_quarantined :
    ∀ (complete : Nat → String → String) (parse : Chunk → String → ParseOutcome)
      (chunks : List Chunk) (c : Chunk),
      c ∈ chunks →
      (∀ s, ((parse c) s).isOk = false) →
      (extract complete (parse c) c).1 =
        Except.error ExtractError.ExtractionParseError ∧
      (extract complete (parse c) c).2 = maxRepairAttempts + 1 ∧
      c.id ∈ (ingestRun complete parse chunks).quarantined ∧
      (ingestRun complete parse chunks).corpus = chunks ∧
      (ingestRun complete parse chunks).processed.length +
        (ingestRun complete parse chunks).quarantined.length = chunks.length := by
  intro complete parse chunks c hc hfail
  have hext := extract_always_fails complete (parse c) c hfail
  refine ⟨by rw [hext], by rw [hext], ?_, rfl, ?_⟩
  · show c.id ∈ (chunks.filter _).map Chunk.id
    apply List.mem_map.mpr
    refine ⟨c, ?_, rfl⟩
    apply List.mem_filter.mpr
    refine ⟨hc, ?_⟩
    simp [hext, Except.isOk, Except.toBool]
  · show ((chunks.filter _).map Chunk.id).length +
      ((chunks.filter _).map Chunk.id).length = chunks.length
    rw [List.length_map, List.length_map]
    exact (List.length_eq_length_filter_add _).symm

theorem C7_unparseable_chunk_quarantined_witness :
    (extract (fun _ _ => "out")
      (fun _ => (Except.error "bad" : ParseOutcome)) chW).1 =
        Except.error ExtractError.ExtractionParseError ∧
    (extract (fun _ _ => "out")
      (fun _ => (Except.error "bad" : ParseOutcome)) chW).2 =
        maxRepairAttempts + 1 ∧
    chW.id ∈ (ingestRun (fun _ _ => "out")
      (fun _ _ => (Except.error "bad" : ParseOutcome)) [chW]).quarantined ∧
    (ingestRun (fun _ _ => "out")
      (fun _ _ => (Except.error "bad" : ParseOutcome)) [chW]).corpus = [chW] ∧
    (ingestRun (fun _ _ => "out")
      (fun _ _ => (Except.error "bad" : ParseOutcome)) [chW]).processed.length +
      (ingestRun (fun _ _ => "out")
        (fun _ _ => (Except.error "bad" : ParseOutcome)) [chW]).quarantined.length =
      [chW].length :=
  C7_unparseable_chunk_quarantined (fun _ _ => "out")
    (fun _ _ => (Except.error "bad" : ParseOutcome)) [chW] chW
    (List.mem_singleton.mpr rfl) (fun _ => rfl)

/-! ### Index snapshot round-trip (claim C3) -/

theorem traverseO_map {α : Type} (f : SVal → Option α) (g : α → SVal) :
    ∀ l : List α, (∀ a ∈ l, f (g a) = some a) → traverseO f (l.map g) = some l := by
  intro l
  induction l with
  | nil => intro _; rfl
  | cons a l ih =>
    intro h
    have ha := h a (List.mem_cons_self a l)
    have hl := ih (fun b hb => h b (List.mem_cons_of_mem a hb))
    simp only [List.map_cons, traverseO]
    rw [ha, hl]

theorem decNatSet_enc (s : Finset Nat) : decNatSet (encNatSet s) = some s := by
  show Option.map List.toFinset
      (traverseO decNat ((s.sort (· ≤ ·)).map SVal.nat)) = some s
  rw [traverseO_map decNat SVal.nat (s.sort (· ≤ ·)) (fun a _ => rfl)]
  simp [Finset.sort_toFinset]

theorem decStrSet_enc (s : Finset String) : decStrSet (encStrSet s) = some s := by
  show Option.map List.toFinset
      (traverseO decStr ((s.sort (· ≤ ·)).map SVal.str)) = some s
  rw [traverseO_map decStr SVal.str (s.sort (· ≤ ·)) (fun a _ => rfl)]
  simp [Finset.sort_toFinset]

theorem decOptNat_enc (o : Option Nat) : decOptNat (encOptNat o) = some o := by
  cases o <;> rfl

theorem decOptStr_enc (o : Option String) : decOptStr (encOptStr o) = some o := by
  cases o <;> rfl

theorem decRat_enc (q : ℚ) : decRat (encRat q) = some q := by
  show some ((q.num : ℚ) / (q.den : ℚ)) = some q
  rw [Rat.num_div_den]

theorem decEntity_enc (e : Entity) : decEntity (encEntity e) = some e := by
  simp [decEntity, encEntity, decNat, decStr, decNatSet_enc, decStrSet_enc]

theorem decRel_enc (r : Relationship) : decRel (encRel r) = some r := by
  simp [decRel, encRel, decNat, decStr, decNatSet_enc, decRat_enc]

theorem decCommunity_enc (c : Community) : decCommunity (encCommunity c) = some c := by
  simp [decCommunity, encCommunity, decNat, decNatSet_enc, decOptNat_enc,
    decOptStr_enc]

theorem decChunkMeta_enc (c : ChunkMeta) : decChunkMeta (encChunkMeta c) = some c := by
  simp [decChunkMeta, encChunkMeta, decNat]

theorem decGraph_enc (g : Graph) : decGraph (encGraph g) = some g := by
  have h1 : traverseO decEntity (g.entities.map encEntity) = some g.entities :=
    traverseO_map decEntity encEntity g.entities (fun e _ => decEntity_enc e)
  have h2 : traverseO decRel (g.relationships.map encRel) = some g.relationships :=
    traverseO_map decRel encRel g.relationships (fun r _ => decRel_enc r)
  simp [decGraph, encGraph, h1, h2]

theorem decLevel_enc (lvl : List Community) :
    decLevel (SVal.arr (lvl.map encCommunity)) = some lvl := by
  unfold decLevel
  exact traverseO_map decCommunity encCommunity lvl (fun C _ => decCommunity_enc C)

/-- C3: deserializing the serialization of any index snapshot reproduces
the snapshot exactly — the same entity set, relationship set, community
partition and chunk metadata. -/
theorem C3_snapshot_round_trip :
    ∀ idx : IndexSnapshot, deserialize (serialize idx) = some idx := by
  intro idx
  have h1 : traverseO decLevel
      (idx.communityLevels.map (fun lvl => SVal.arr (lvl.map encCommunity))) =
      some idx.communityLevels :=
    traverseO_map decLevel (fun lvl => SVal.arr (lvl.map encCommunity))
      idx.communityLevels (fun lvl _ => decLevel_enc lvl)
  have h2 : traverseO decChunkMeta (idx.chunks.map encChunkMeta) =
      some idx.chunks :=
    traverseO_map decChunkMeta encChunkMeta idx.chunks
      (fun c _ => decChunkMeta_enc c)
  simp [deserialize, serialize, decNat, decGraph_enc, h1, h2]

/-! ### Leveled community partition (claim C4) -/

theorem mem_unionMembers {v : Nat} : ∀ {S : List Community},
    v ∈ unionMembers S ↔ ∃ C ∈ S, v ∈ C.member_entity_ids := by
  intro S
  induction S with
  | nil => simp [unionMembers]
  | cons C S ih =>
    simp only [unionMembers, List.foldr_cons] at ih ⊢
    rw [Finset.mem_union]
    constructor
    · rintro (h | h)
      · exact ⟨C, List.mem_cons_self C S, h⟩
      · obtain ⟨D, hD, hv⟩ := ih.mp h
        exact ⟨D, List.mem_cons_of_mem C hD, hv⟩
    · rintro ⟨D, hD, hv⟩
      rcases List.mem_cons.mp hD with rfl | hD2
      · exact Or.inl hv
      · exact Or.inr (ih.mpr ⟨D, hD2, hv⟩)

theorem goodLevel_fiberComms (ns : List Nat) (f : Nat → Nat) (lvl : Nat) :
    GoodLevel ns.toFinset (fiberComms ns f lvl) := by
  constructor
  · intro v hv
    rw [List.mem_toFinset] at hv
    refine ⟨⟨f v, lvl, (ns.filter (fun u => f u = f v)).toFinset, none, none⟩,
      ⟨?_, ?_⟩, ?_⟩
    · apply List.mem_map.mpr
      exact ⟨f v, List.mem_dedup.mpr (List.mem_map.mpr ⟨v, hv, rfl⟩), rfl⟩
    · rw [List.mem_toFinset]
      exact List.mem_filter.mpr ⟨hv, by simp⟩
    · rintro C ⟨hC, hvC⟩
      obtain ⟨c, hc, rfl⟩ := List.mem_map.mp hC
      rw [List.mem_toFinset, List.mem_filter] at hvC
      have hfv : f v = c := by simpa using hvC.2
      subst hfv
      rfl
  · intro C hC
    obtain ⟨c, hc, rfl⟩ := List.mem_map.mp hC
    constructor
    · intro x hx
      rw [List.mem_toFinset, List.mem_filter] at hx
      rw [List.mem_toFinset]
      exact hx.1
    · obtain ⟨u, hu, hfu⟩ := List.mem_map.mp (List.mem_dedup.mp hc)
      exact ⟨u, by
        rw [List.mem_toFinset]
        exact List.mem_filter.mpr ⟨hu, by simp [hfu]⟩⟩

theorem goodLevel_levelUp {ids : Finset Nat} {comms : List Community}
    (h : GoodLevel ids comms) (f : Nat → Nat) (lvl : Nat) :
    GoodLevel ids (levelUp comms f lvl) := by
  obtain ⟨hcov, hsub⟩ := h
  constructor
  · intro v hv
    obtain ⟨C, ⟨hC, hvC⟩, huniq⟩ := hcov v hv
    refine ⟨⟨f C.id, lvl,
        unionMembers (comms.filter (fun D => decide (f D.id = f C.id))),
        none, none⟩, ⟨?_, ?_⟩, ?_⟩
    · apply List.mem_map.mpr
      exact ⟨f C.id, List.mem_dedup.mpr (List.mem_map.mpr ⟨C, hC, rfl⟩), rfl⟩
    · exact mem_unionMembers.mpr ⟨C, List.mem_filter.mpr ⟨hC, by simp⟩, hvC⟩
    · rintro C2 ⟨hC2, hvC2⟩
      obtain ⟨c2, hc2, rfl⟩ := List.mem_map.mp hC2
      obtain ⟨D, hDf, hvD⟩ := mem_unionMembers.mp hvC2
      obtain ⟨hD, hDc⟩ := List.mem_filter.mp hDf
      have hDC : D = C := huniq D ⟨hD, hvD⟩
      have hfc : f C.id = c2 := by
        rw [← hDC]
        exact of_decide_eq_true hDc
      subst hfc
      rfl
  · intro C2 hC2
    obtain ⟨c2, hc2, rfl⟩ := List.mem_map.mp hC2
    constructor
    · intro x hx
      obtain ⟨D, hDf, hxD⟩ := mem_unionMembers.mp hx
      obtain ⟨hD, _⟩ := List.mem_filter.mp hDf
      exact (hsub D hD).1 hxD
    · obtain ⟨D, hD, hDc⟩ := List.mem_map.mp (List.mem_dedup.mp hc2)
      obtain ⟨x, hx⟩ := (hsub D hD).2
      exact ⟨x, mem_unionMembers.mpr
        ⟨D, List.mem_filter.mpr ⟨hD, by simp [hDc]⟩, hx⟩⟩

theorem levelStep_levelUp {ids : Finset Nat} {comms : List Community}
    (h : GoodLevel ids comms) (f : Nat → Nat) (lvl : Nat) :
    LevelStep comms (levelUp comms f lvl) := by
  obtain ⟨hcov, hsub⟩ := h
  constructor
  · intro C2 hC2
    obtain ⟨c2, hc2, rfl⟩ := List.mem_map.mp hC2
    exact ⟨comms.filter (fun D => decide (f D.id = c2)),
      fun D hD => (List.mem_filter.mp hD).1, rfl⟩
  · intro C hC
    refine ⟨⟨f C.id, lvl,
        unionMembers (comms.filter (fun D => decide (f D.id = f C.id))),
        none, none⟩, ⟨?_, ?_⟩, ?_⟩
    · apply List.mem_map.mpr
      exact ⟨f C.id, List.mem_dedup.mpr (List.mem_map.mpr ⟨C, hC, rfl⟩), rfl⟩
    · intro x hx
      exact mem_unionMembers.mpr ⟨C, List.mem_filter.mpr ⟨hC, by simp⟩, hx⟩
    · rintro C2 ⟨hC2, hCsub⟩
      obtain ⟨c2, hc2, rfl⟩ := List.mem_map.mp hC2
      obtain ⟨v, hv⟩ := (hsub C hC).2
      obtain ⟨D, hDf, hvD⟩ := mem_unionMembers.mp (hCsub hv)
      obtain ⟨hD, hDc⟩ := List.mem_filter.mp hDf
      obtain ⟨E, _, huniq⟩ := hcov v ((hsub C hC).1 hv)
      have hDE : D = E := huniq D ⟨hD, hvD⟩
      have hCE : C = E := huniq C ⟨hC, hv⟩
      have hfc : f C.id = c2 := by
        rw [hCE, ← hDE]
        exact of_decide_eq_true hDc
      subst hfc
      rfl

theorem levelChain_buildLevels (w : Nat → Nat → Wt) (base : List Nat) :
    ∀ (fuel : Nat) (comms : List Community) (lvl : Nat) (ids : Finset Nat),
      GoodLevel ids comms →
      LevelChain ids comms (buildLevels w base fuel comms lvl) := by
  intro fuel
  induction fuel with
  | zero =>
    intro comms lvl ids _
    exact trivial
  | succ fuel ih =>
    intro comms lvl ids h
    show LevelChain ids comms
      (if (levelUp comms (superAssign w base comms) lvl).length < comms.length then
        levelUp comms (superAssign w base comms) lvl ::
          buildLevels w base fuel (levelUp comms (superAssign w base comms) lvl)
            (lvl + 1)
      else [])
    by_cases hlt :
        (levelUp comms (superAssign w base comms) lvl).length < comms.length
    · rw [if_pos hlt]
      exact ⟨goodLevel_levelUp h _ lvl, levelStep_levelUp h _ lvl,
        ih _ (lvl + 1) ids (goodLevel_levelUp h _ lvl)⟩
    · rw [if_neg hlt]
      exact trivial

theorem levelChain_get {ids : Finset Nat} :
    ∀ (rest : List (List Community)) (P : List Community),
      LevelChain ids P rest →
      ∀ (L : Nat) (Q1 Q2 : List Community),
        (P :: rest)[L]? = some Q1 → (P :: rest)[L + 1]? = some Q2 →
        LevelStep Q1 Q2 := by
  intro rest
  induction rest with
  | nil =>
    intro P _ L Q1 Q2 _ h2
    rw [List.getElem?_cons_succ] at h2
    exact absurd h2 (by simp)
  | cons Q rest ih =>
    intro P hchain L Q1 Q2 h1 h2
    have hchain2 : GoodLevel ids Q ∧ LevelStep P Q ∧ LevelChain ids Q rest :=
      hchain
    obtain ⟨hg, hs, hc⟩ := hchain2
    cases L with
    | zero =>
      rw [List.getElem?_cons_zero] at h1
      rw [List.getElem?_cons_succ, List.getElem?_cons_zero] at h2
      injection h1 with h1
      injection h2 with h2
      subst h1
      subst h2
      exact hs
    | succ L =>
      rw [List.getElem?_cons_succ] at h1 h2
      exact ih Q hc L Q1 Q2 h1 h2

theorem entityIdList_toFinset (g : Graph) :
    (entityIdList g).toFinset = entityIds g := by
  unfold entityIdList entityIds
  rw [List.toFinset_eq_of_perm _ _ (List.perm_insertionSort _ _)]
  apply Finset.ext
  intro x
  simp [List.mem_toFinset, List.mem_dedup]

/-- C4: the leveled partition produced by `detect_communities` covers
every Entity of the graph exactly once at level 0 (each entity belongs to
exactly one level-0 community), and for every level L present in the
output, each level-(L+1) community is a union of whole level-L
communities and every level-L community lies inside exactly one
level-(L+1) community. -/
theorem C4_leveled_partition :
    ∀ g : Graph,
      (∀ v ∈ entityIds g, ∃! C, C ∈ (detect_communities g).headI ∧
        v ∈ C.member_entity_ids) ∧
      (∀ (L : Nat) (P Q : List Community),
        (detect_communities g)[L]? = some P →
        (detect_communities g)[L + 1]? = some Q → LevelStep P Q) := by
  intro g
  have hgood : GoodLevel (entityIds g)
      (fiberComms (entityIdList g) (baseAssign g) 0) := by
    rw [← entityIdList_toFinset g]
    exact goodLevel_fiberComms _ _ _
  have hchain := levelChain_buildLevels g.edgeWeight (entityIdList g)
    maxLevelCount (fiberComms (entityIdList g) (baseAssign g) 0) 1
    (entityIds g) hgood
  constructor
  · intro v hv
    exact hgood.1 v hv
  · intro L P Q h1 h2
    exact levelChain_get _ _ hchain L P Q h1 h2

theorem C4_leveled_partition_witness :
    (∃! C, C ∈ (detect_communities gW4).headI ∧
      (1 : Nat) ∈ C.member_entity_ids) ∧
    LevelStep
      [⟨2, 0, {1, 2}, none, none⟩, ⟨4, 0, {3, 4}, none, none⟩]
      [⟨4, 1, {1, 2, 3, 4}, none, none⟩] :=
  ⟨(C4_leveled_partition gW4).1 1 (by decide),
   (C4_leveled_partition gW4).2 0
     [⟨2, 0, {1, 2}, none, none⟩, ⟨4, 0, {3, 4}, none, none⟩]
     [⟨4, 1, {1, 2, 3, 4}, none, none⟩] (by decide) (by decide)⟩
